import Mathlib

/-!
Verification of the two debugging utilities `internal/print_bodies.py` and
`internal/print_response_body.py`.

Python strings are modelled as lists of characters (`JStr`).  The standard
library functions `json.loads` / `json.dumps(·, indent=2)` are modelled by an
executable parser (`pyLoads`) and serializer (`pyDumps`) over a JSON value
type; the numeric grammar is restricted to integers (floating-point literals,
`NaN` and `Infinity` are outside the model) and the serializer emits non-ASCII
characters raw rather than `\u`-escaped.  Standard output is modelled as the
list of strings passed to `print`, one element per `print` call.
-/

abbrev JStr := List Char

/-- The whitespace characters recognized by the JSON grammar (`json.loads`). -/
def isJsonWs (c : Char) : Bool :=
  c == '\t' || c == ' ' || c == '\r' || c == '\n'

/-- Drop leading JSON whitespace. -/
def skipWs : JStr → JStr
  | [] => []
  | c :: cs => if isJsonWs c then skipWs cs else c :: cs

/-- The ASCII whitespace characters stripped by Python `str.strip()`. -/
def isPySpace (c : Char) : Bool :=
  c == '\x0c' || c == '\x0b' || c == '\t' || c == ' ' || c == '\r' || c == '\n'

/-- Python `line.strip()`: remove leading and trailing whitespace. -/
def pyStrip (l : JStr) : JStr :=
  ((l.dropWhile isPySpace).reverse.dropWhile isPySpace).reverse

/-- Python `body.split("\n")`: split on newlines, keeping empty pieces
(`"a\nb\n".split("\n") == ["a", "b", ""]`, `"".split("\n") == [""]`). -/
def splitLines : JStr → List JStr
  | [] => [[]]
  | c :: cs =>
    if c = '\n' then [] :: splitLines cs
    else
      match splitLines cs with
      | l :: ls => (c :: l) :: ls
      | [] => [[c]]

/-- Python `s.startswith(p)`. -/
def strStarts : JStr → JStr → Bool
  | _, [] => true
  | [], _ :: _ => false
  | c :: cs, p :: ps => c == p && strStarts cs ps

/-- JSON values as produced by `json.loads`: objects are ordered association
lists (key order as encountered, no deduplication), numbers are integers. -/
inductive Json where
  | null : Json
  | bool : Bool → Json
  | num : Int → Json
  | str : JStr → Json
  | arr : List Json → Json
  | obj : List (JStr × Json) → Json
deriving Repr

mutual

def jeq : Json → Json → Bool
  | .null, .null => true
  | .bool a, .bool b => a == b
  | .num a, .num b => a == b
  | .str a, .str b => a == b
  | .arr a, .arr b => jeqL a b
  | .obj a, .obj b => jeqO a b
  | _, _ => false

def jeqL : List Json → List Json → Bool
  | [], [] => true
  | a :: as, b :: bs => jeq a b && jeqL as bs
  | _, _ => false

def jeqO : List (JStr × Json) → List (JStr × Json) → Bool
  | [], [] => true
  | (k1, v1) :: as, (k2, v2) :: bs => k1 == k2 && jeq v1 v2 && jeqO as bs
  | _, _ => false

end

mutual

theorem jeq_refl : ∀ a : Json, jeq a a = true
  | .null => rfl
  | .bool a => by simp [jeq]
  | .num a => by simp [jeq]
  | .str a => by simp [jeq]
  | .arr xs => by simp [jeq, jeqL_refl xs]
  | .obj ps => by simp [jeq, jeqO_refl ps]

theorem jeqL_refl : ∀ xs : List Json, jeqL xs xs = true
  | [] => rfl
  | x :: xs => by simp [jeqL, jeq_refl x, jeqL_refl xs]

theorem jeqO_refl : ∀ ps : List (JStr × Json), jeqO ps ps = true
  | [] => rfl
  | (k, v) :: ps => by simp [jeqO, jeq_refl v, jeqO_refl ps]

end

mutual

theorem jeq_eq : ∀ a b : Json, jeq a b = true → a = b
  | .null, .null, _ => rfl
  | .bool a, .bool b, h => by simpa [jeq] using h
  | .num a, .num b, h => by simpa [jeq] using h
  | .str a, .str b, h => by simpa [jeq] using h
  | .arr xs, .arr ys, h => by
      have := jeqL_eq xs ys (by simpa [jeq] using h)
      simp [this]
  | .obj ps, .obj qs, h => by
      have := jeqO_eq ps qs (by simpa [jeq] using h)
      simp [this]
  | .null, .bool _, h => by simp [jeq] at h
  | .null, .num _, h => by simp [jeq] at h
  | .null, .str _, h => by simp [jeq] at h
  | .null, .arr _, h => by simp [jeq] at h
  | .null, .obj _, h => by simp [jeq] at h
  | .bool _, .null, h => by simp [jeq] at h
  | .bool _, .num _, h => by simp [jeq] at h
  | .bool _, .str _, h => by simp [jeq] at h
  | .bool _, .arr _, h => by simp [jeq] at h
  | .bool _, .obj _, h => by simp [jeq] at h
  | .num _, .null, h => by simp [jeq] at h
  | .num _, .bool _, h => by simp [jeq] at h
  | .num _, .str _, h => by simp [jeq] at h
  | .num _, .arr _, h => by simp [jeq] at h
  | .num _, .obj _, h => by simp [jeq] at h
  | .str _, .null, h => by simp [jeq] at h
  | .str _, .bool _, h => by simp [jeq] at h
  | .str _, .num _, h => by simp [jeq] at h
  | .str _, .arr _, h => by simp [jeq] at h
  | .str _, .obj _, h => by simp [jeq] at h
  | .arr _, .null, h => by simp [jeq] at h
  | .arr _, .bool _, h => by simp [jeq] at h
  | .arr _, .num _, h => by simp [jeq] at h
  | .arr _, .str _, h => by simp [jeq] at h
  | .arr _, .obj _, h => by simp [jeq] at h
  | .obj _, .null, h => by simp [jeq] at h
  | .obj _, .bool _, h => by simp [jeq] at h
  | .obj _, .num _, h => by simp [jeq] at h
  | .obj _, .str _, h => by simp [jeq] at h
  | .obj _, .arr _, h => by simp [jeq] at h

theorem jeqL_eq : ∀ xs ys : List Json, jeqL xs ys = true → xs = ys
  | [], [], _ => rfl
  | x :: xs, y :: ys, h => by
      have h' : jeq x y = true ∧ jeqL xs ys = true := by simpa [jeqL] using h
      rw [jeq_eq x y h'.1, jeqL_eq xs ys h'.2]
  | [], _ :: _, h => by simp [jeqL] at h
  | _ :: _, [], h => by simp [jeqL] at h

theorem jeqO_eq : ∀ ps qs : List (JStr × Json), jeqO ps qs = true → ps = qs
  | [], [], _ => rfl
  | (k1, v1) :: ps, (k2, v2) :: qs, h => by
      have h' : k1 = k2 ∧ jeq v1 v2 = true ∧ jeqO ps qs = true := by
        simpa [jeqO, Bool.and_assoc, Bool.and_eq_true] using h
      rw [h'.1, jeq_eq v1 v2 h'.2.1, jeqO_eq ps qs h'.2.2]
  | [], _ :: _, h => by simp [jeqO] at h
  | _ :: _, [], h => by simp [jeqO] at h

end

instance : DecidableEq Json := fun a b =>
  if h : jeq a b = true then isTrue (jeq_eq a b h)
  else isFalse (fun he => h (he ▸ jeq_refl a))

/-! ### The serializer: model of `json.dumps(d, indent=2)` -/

def digitChar : Nat → Char
  | 0 => '0' | 1 => '1' | 2 => '2' | 3 => '3' | 4 => '4'
  | 5 => '5' | 6 => '6' | 7 => '7' | 8 => '8' | _ => '9'

/-- Decimal digits of `n`, most significant first, prepended to `acc`.
Fuel-driven so that it reduces in the kernel; `natChars` supplies enough. -/
def natCharsF : Nat → Nat → JStr → JStr
  | 0, _, acc => acc
  | f + 1, n, acc =>
    if n < 10 then digitChar n :: acc
    else natCharsF f (n / 10) (digitChar (n % 10) :: acc)

/-- Decimal representation of a natural number. -/
def natChars (n : Nat) : JStr := natCharsF (n + 1) n []

/-- Python `repr` of an integer, as emitted by `json.dumps`. -/
def intChars (n : Int) : JStr :=
  if n < 0 then '-' :: natChars n.natAbs else natChars n.natAbs

def hexChar : Nat → Char
  | 0 => '0' | 1 => '1' | 2 => '2' | 3 => '3' | 4 => '4'
  | 5 => '5' | 6 => '6' | 7 => '7' | 8 => '8' | 9 => '9'
  | 10 => 'a' | 11 => 'b' | 12 => 'c' | 13 => 'd' | 14 => 'e' | _ => 'f'

/-- The escape `json.dumps` applies to one string character: short escapes for
the named control characters, `\u00XX` for other control characters, the
character itself otherwise. -/
def escCharJ (c : Char) : JStr :=
  if c = '"' then ['\\', '"']
  else if c = '\\' then ['\\', '\\']
  else if c = '\n' then ['\\', 'n']
  else if c = '\t' then ['\\', 't']
  else if c = '\r' then ['\\', 'r']
  else if c = '\x08' then ['\\', 'b']
  else if c = '\x0c' then ['\\', 'f']
  else if c.toNat < 32 then
    '\\' :: 'u' :: '0' :: '0' :: [hexChar (c.toNat / 16), hexChar (c.toNat % 16)]
  else [c]

def escapeStr : JStr → JStr
  | [] => []
  | c :: cs => escCharJ c ++ escapeStr cs

def nspaces (n : Nat) : JStr := List.replicate n ' '

mutual

/-- `json.dumps(v, indent=2)` at nesting depth `k`: items of a non-empty array
or object go one per line indented by `2*(k+1)` spaces, separated by `",\n"`,
with the closing bracket on its own line indented by `2*k` spaces; empty
containers print as `[]` / `{}`; the key separator is `": "`. -/
def dumpVal (k : Nat) : Json → JStr
  | .num n => intChars n
  | .bool true => ['t', 'r', 'u', 'e']
  | .str s => '"' :: (escapeStr s ++ ['"'])
  | .null => ['n', 'u', 'l', 'l']
  | .arr [] => ['[', ']']
  | .bool false => ['f', 'a', 'l', 's', 'e']
  | .arr (x :: xs) => '[' :: '\n' :: dumpListA k (x :: xs)
  | .obj [] => ['\x7b', '\x7d']
  | .obj (p :: ps) => '\x7b' :: '\n' :: dumpListO k (p :: ps)

def dumpListA (k : Nat) : List Json → JStr
  | [] => []
  | [x] => nspaces (2 * (k + 1)) ++ dumpVal (k + 1) x ++ '\n' :: nspaces (2 * k) ++ [']']
  | x :: y :: xs =>
    nspaces (2 * (k + 1)) ++ dumpVal (k + 1) x ++ ',' :: '\n' :: dumpListA k (y :: xs)

def dumpListO (k : Nat) : List (JStr × Json) → JStr
  | [] => []
  | [(s, v)] =>
    nspaces (2 * (k + 1)) ++ '"' :: (escapeStr s ++ '"' :: ':' :: ' ' :: dumpVal (k + 1) v)
      ++ '\n' :: nspaces (2 * k) ++ ['\x7d']
  | (s, v) :: q :: ps =>
    nspaces (2 * (k + 1)) ++ '"' :: (escapeStr s ++ '"' :: ':' :: ' ' :: dumpVal (k + 1) v)
      ++ ',' :: '\n' :: dumpListO k (q :: ps)

end

/-- Model of `json.dumps(v, indent=2)`. -/
def pyDumps (v : Json) : JStr := dumpVal 0 v

/-! ### The parser: model of `json.loads` -/

def isDig (c : Char) : Bool := 48 ≤ c.toNat && c.toNat ≤ 57

/-- Scan a run of decimal digits, accumulating their value. -/
def parseDigits : JStr → Nat → Nat × JStr
  | c :: cs, acc => if isDig c then parseDigits cs (acc * 10 + (c.toNat - 48)) else (acc, c :: cs)
  | [], acc => (acc, [])

/-- Parse an unsigned JSON integer literal (`0 | [1-9][0-9]*`; a leading zero
followed by another digit is rejected, as in Python). -/
def parseNum : JStr → Option (Nat × JStr)
  | [] => none
  | c :: cs =>
    if c = '0' then
      match cs with
      | c2 :: _ => if isDig c2 then none else some (0, cs)
      | [] => some (0, [])
    else if isDig c then some (parseDigits cs (c.toNat - 48))
    else none

def hexVal (c : Char) : Option Nat :=
  if 48 ≤ c.toNat && c.toNat ≤ 57 then some (c.toNat - 48)
  else if 97 ≤ c.toNat && c.toNat ≤ 102 then some (c.toNat - 87)
  else if 65 ≤ c.toNat && c.toNat ≤ 70 then some (c.toNat - 55)
  else none

def escDecode (c : Char) : Option Char :=
  if c = '"' then some '"'
  else if c = '\\' then some '\\'
  else if c = '/' then some '/'
  else if c = 'n' then some '\n'
  else if c = 't' then some '\t'
  else if c = 'r' then some '\r'
  else if c = 'b' then some '\x08'
  else if c = 'f' then some '\x0c'
  else none

/-- Parse the body of a JSON string literal, after the opening quote.  Raw
control characters are rejected (`strict=True`), escape sequences decoded. -/
def parseStr : JStr → Option (JStr × JStr)
  | [] => none
  | c :: r =>
    if c = '"' then some ([], r)
    else if c = '\\' then
      match r with
      | [] => none
      | e :: r2 =>
        if e = 'u' then
          match r2 with
          | a :: b :: c2 :: d :: r3 =>
            match hexVal a, hexVal b, hexVal c2, hexVal d with
            | some ha, some hb, some hc, some hd =>
              (parseStr r3).map (fun p => (Char.ofNat (((ha * 16 + hb) * 16 + hc) * 16 + hd) :: p.1, p.2))
            | _, _, _, _ => none
          | _ => none
        else
          match escDecode e with
          | some ec => (parseStr r2).map (fun p => (ec :: p.1, p.2))
          | none => none
    else if c.toNat < 32 then none
    else (parseStr r).map (fun p => (c :: p.1, p.2))

/-- Check for an exact literal continuation (e.g. `ull` after `n`). -/
def expectLit : JStr → JStr → Option JStr
  | [], r => some r
  | c :: cs, r =>
    match r with
    | d :: r2 => if d = c then expectLit cs r2 else none
    | [] => none

mutual

/-- Parse one JSON value, skipping leading whitespace.  The fuel argument
bounds recursion depth; `pyLoads` supplies enough for any input. -/
def parseVal : Nat → JStr → Option (Json × JStr)
  | 0, _ => none
  | f + 1, cs =>
    match skipWs cs with
    | [] => none
    | c :: r =>
      if c = 'n' then (expectLit ['u', 'l', 'l'] r).map (fun r2 => (Json.null, r2))
      else if c = 't' then (expectLit ['r', 'u', 'e'] r).map (fun r2 => (Json.bool true, r2))
      else if c = 'f' then (expectLit ['a', 'l', 's', 'e'] r).map (fun r2 => (Json.bool false, r2))
      else if c = '"' then (parseStr r).map (fun p => (Json.str p.1, p.2))
      else if c = '[' then
        match skipWs r with
        | ']' :: r2 => some (Json.arr [], r2)
        | _ => (parseArrItems f r).map (fun p => (Json.arr p.1, p.2))
      else if c = '\x7b' then
        match skipWs r with
        | '\x7d' :: r2 => some (Json.obj [], r2)
        | _ => (parseObjItems f r).map (fun p => (Json.obj p.1, p.2))
      else if c = '-' then (parseNum r).map (fun p => (Json.num (-(p.1 : Int)), p.2))
      else if isDig c then (parseNum (c :: r)).map (fun p => (Json.num (p.1 : Int), p.2))
      else none

/-- Parse the items of a non-empty array, up to and including `]`. -/
def parseArrItems : Nat → JStr → Option (List Json × JStr)
  | 0, _ => none
  | f + 1, cs =>
    match parseVal f cs with
    | none => none
    | some (v, r) =>
      match skipWs r with
      | c :: r2 =>
        if c = ',' then (parseArrItems f r2).map (fun p => (v :: p.1, p.2))
        else if c = ']' then some ([v], r2)
        else none
      | [] => none

/-- Parse the members of a non-empty object, up to and including `}`. -/
def parseObjItems : Nat → JStr → Option (List (JStr × Json) × JStr)
  | 0, _ => none
  | f + 1, cs =>
    match skipWs cs with
    | c :: r =>
      if c = '"' then
        match parseStr r with
        | none => none
        | some (key, r1) =>
          match skipWs r1 with
          | c2 :: r2 =>
            if c2 = ':' then
              match parseVal f r2 with
              | none => none
              | some (v, r3) =>
                match skipWs r3 with
                | c3 :: r4 =>
                  if c3 = ',' then (parseObjItems f r4).map (fun p => ((key, v) :: p.1, p.2))
                  else if c3 = '\x7d' then some ([(key, v)], r4)
                  else none
                | [] => none
            else none
          | [] => none
      else none
    | [] => none

end

/-- Model of `json.loads`: parse one value and require only trailing
whitespace after it. -/
def pyLoads (s : JStr) : Option Json :=
  match parseVal (2 * s.length + 2) s with
  | some (v, rest) => if skipWs rest = [] then some v else none
  | none => none

/-! ### The two scripts -/

/-- `print_bodies.print_line`: JSON-parse-or-raw-print one string.  The result
is the list of strings passed to `print`. -/
def print_line (line : JStr) : List JStr :=
  match pyLoads line with
  | some d => [pyDumps d]
  | none => [line]

def dataPre : JStr := ['d', 'a', 't', 'a', ':']

def eventPre : JStr := ['e', 'v', 'e', 'n', 't', ':']

/-- One iteration of the stream loop in `print_bodies.main`: skip `event:`
lines, strip the 5-character `data:` marker, strip whitespace, skip empty
results, print the rest via `print_line`. -/
def decodeLinePB (line : JStr) : List JStr :=
  if strStarts line eventPre then []
  else
    let l1 := if strStarts line dataPre then line.drop 5 else line
    let l2 := pyStrip l1
    if l2 = [] then [] else print_line l2

/-- Response-body handling in `print_bodies.main`. -/
def decodeRespPB (body : JStr) : List JStr :=
  if strStarts body dataPre || strStarts body eventPre then
    ((splitLines body).map decodeLinePB).flatten
  else print_line body

/-- One iteration of the stream loop in `print_response_body.main`: no
`event:` handling, otherwise as in `print_bodies`. -/
def decodeLinePRB (line : JStr) : List JStr :=
  let l1 := if strStarts line dataPre then line.drop 5 else line
  let l2 := pyStrip l1
  if l2 = [] then [] else print_line l2

/-- Response-body handling in `print_response_body.main`: note that the
non-stream branch prints the body raw, with no JSON parse attempt. -/
def decodeRespPRB (body : JStr) : List JStr :=
  if strStarts body dataPre then ((splitLines body).map decodeLinePRB).flatten
  else [body]

/-- One recorded interaction after `yaml.safe_load`.  `request = none` models
an interaction mapping with no `"request"` key (so `interaction["request"]`
raises `KeyError`); `request = some none` models a request mapping without a
`"body"` key (`.get("body")` returns `None`); `request = some (some b)` a
present body `b`.  Per the file invariant, `response.body` is always
present. -/
structure Interaction where
  request : Option (Option JStr)
  responseBody : JStr

def requestLabel : JStr := "\x1b[1mRequest:\x1b[0m".data

def responseLabel : JStr := "\x1b[1mResponse:\x1b[0m".data

/-- The body of the per-interaction loop in `print_bodies.main`; `none` models
an uncaught `KeyError` (abnormal termination). -/
def procInteractionPB (i : Interaction) : Option (List JStr) :=
  match i.request with
  | none => none
  | some req =>
    let reqOut : List JStr :=
      match req with
      | some b => if b = [] then [] else requestLabel :: print_line b
      | none => []
    some (reqOut ++ responseLabel :: decodeRespPB i.responseBody)

/-- The body of the per-interaction loop in `print_response_body.main` (no
labels, no request handling). -/
def procInteractionPRB (i : Interaction) : List JStr :=
  decodeRespPRB i.responseBody

def usagePB : JStr := "Usage: print_bodies.py <filename>".data

def usagePRB : JStr := "Usage: print_response_body.py <filename>".data

/-- `print_bodies.main`.  `argv` includes the program name; `fs` models
opening the file, `yaml.safe_load`, and the `["interactions"]` lookup (`none`
for any failure there).  Result: `some (printed lines, exit code)` on normal
return, `none` on abnormal termination. -/
def runPB (argv : List JStr) (fs : JStr → Option (List Interaction)) :
    Option (List JStr × Nat) :=
  match argv with
  | _ :: fname :: _ =>
    match fs fname with
    | none => none
    | some ints =>
      match ints.mapM procInteractionPB with
      | none => none
      | some outs => some (outs.flatten, 0)
  | _ => some ([usagePB], 1)

/-- `print_response_body.main`, same conventions as `runPB`. -/
def runPRB (argv : List JStr) (fs : JStr → Option (List Interaction)) :
    Option (List JStr × Nat) :=
  match argv with
  | _ :: fname :: _ =>
    match fs fname with
    | none => none
    | some ints => some ((ints.map procInteractionPRB).flatten, 0)
  | _ => some ([usagePRB], 1)

/-! ### Character-class and whitespace lemmas -/

/-- `true` iff the string does not begin with a decimal digit. -/
def headNotDig : JStr → Bool
  | [] => true
  | c :: _ => !isDig c

theorem isJsonWs_cases (c : Char) (h : isJsonWs c = true) :
    c = '\t' ∨ c = ' ' ∨ c = '\r' ∨ c = '\n' := by
  simpa [isJsonWs, or_assoc] using h

theorem isDig_not_ws (c : Char) (h : isDig c = true) : isJsonWs c = false := by
  cases hw : isJsonWs c with
  | false => rfl
  | true =>
    rcases isJsonWs_cases c hw with rfl | rfl | rfl | rfl <;> exact absurd h (by decide)

theorem isDig_ne_of (c d : Char) (h : isDig c = true) (hd : isDig d = false) : c ≠ d :=
  fun he => by rw [he, hd] at h; exact Bool.noConfusion h

theorem isDig_ne (c : Char) (h : isDig c = true) :
    c ≠ '-' ∧ c ≠ '\x7b' ∧ c ≠ '[' ∧ c ≠ '"' ∧ c ≠ 'n' ∧ c ≠ 't' ∧ c ≠ 'f' :=
  ⟨isDig_ne_of c '-' h (by decide), isDig_ne_of c '\x7b' h (by decide),
   isDig_ne_of c '[' h (by decide), isDig_ne_of c '"' h (by decide),
   isDig_ne_of c 'n' h (by decide), isDig_ne_of c 't' h (by decide),
   isDig_ne_of c 'f' h (by decide)⟩

theorem isDig_ne_brackets (c : Char) (h : isDig c = true) : c ≠ ']' ∧ c ≠ '\x7d' :=
  ⟨isDig_ne_of c ']' h (by decide), isDig_ne_of c '\x7d' h (by decide)⟩

theorem digitChar_facts : ∀ n, n < 10 →
    isDig (digitChar n) = true ∧ (1 ≤ n → digitChar n ≠ '0') ∧
      (digitChar n).toNat - 48 = n ∧ isJsonWs (digitChar n) = false := by decide

theorem hexVal_hexChar : ∀ n, n < 16 → hexVal (hexChar n) = some n := by decide

theorem skipWs_cons_ws (c : Char) (l : JStr) (h : isJsonWs c = true) :
    skipWs (c :: l) = skipWs l := by simp [skipWs, h]

theorem skipWs_cons_nonws (c : Char) (l : JStr) (h : isJsonWs c = false) :
    skipWs (c :: l) = c :: l := by simp [skipWs, h]

theorem skipWs_nspaces (n : Nat) (l : JStr) : skipWs (nspaces n ++ l) = skipWs l := by
  induction n with
  | zero => simp [nspaces]
  | succ m ih =>
    have : nspaces (m + 1) = ' ' :: nspaces m := by simp [nspaces, List.replicate_succ]
    rw [this, List.cons_append, skipWs_cons_ws _ _ (by decide), ih]

theorem parseVal_cons_ws (f : Nat) (c : Char) (l : JStr) (h : isJsonWs c = true) :
    parseVal f (c :: l) = parseVal f l := by
  cases f with
  | zero => rfl
  | succ f => rw [parseVal, parseVal, skipWs_cons_ws c l h]

theorem parseVal_nspaces (f : Nat) (n : Nat) (l : JStr) :
    parseVal f (nspaces n ++ l) = parseVal f l := by
  induction n with
  | zero => simp [nspaces]
  | succ m ih =>
    have : nspaces (m + 1) = ' ' :: nspaces m := by simp [nspaces, List.replicate_succ]
    rw [this, List.cons_append, parseVal_cons_ws _ _ _ (by decide), ih]

theorem parseArrItems_cons_ws (f : Nat) (c : Char) (l : JStr) (h : isJsonWs c = true) :
    parseArrItems f (c :: l) = parseArrItems f l := by
  cases f with
  | zero => rfl
  | succ f => rw [parseArrItems, parseArrItems, parseVal_cons_ws f c l h]

theorem parseObjItems_cons_ws (f : Nat) (c : Char) (l : JStr) (h : isJsonWs c = true) :
    parseObjItems f (c :: l) = parseObjItems f l := by
  cases f with
  | zero => rfl
  | succ f => rw [parseObjItems, parseObjItems, skipWs_cons_ws c l h]

theorem strStarts_iff (p : JStr) : ∀ l, strStarts l p = true ↔ ∃ t, l = p ++ t := by
  induction p with
  | nil => intro l; simp [strStarts]
  | cons c cs ih =>
    intro l
    cases l with
    | nil => simp [strStarts]
    | cons d ds =>
      simp only [strStarts, Bool.and_eq_true, beq_iff_eq, ih ds, List.cons_append,
        List.cons.injEq]
      constructor
      · rintro ⟨rfl, t, rfl⟩; exact ⟨t, rfl, rfl⟩
      · rintro ⟨t, rfl, rfl⟩; exact ⟨rfl, t, rfl⟩

/-! ### Number round-trip lemmas -/

theorem natCharsF_append : ∀ (f n : Nat) (tail rest : JStr),
    natCharsF f n tail ++ rest = natCharsF f n (tail ++ rest)
  | 0, _, _, _ => rfl
  | f + 1, n, tail, rest => by
    by_cases h : n < 10
    · simp [natCharsF, h]
    · simp only [natCharsF, if_neg h]
      rw [natCharsF_append f (n / 10) _ rest]
      simp

theorem parseDigits_digitChar (n : Nat) (h : n < 10) (tail : JStr) (acc : Nat) :
    parseDigits (digitChar n :: tail) acc = parseDigits tail (acc * 10 + n) := by
  obtain ⟨hd, _, ht, _⟩ := digitChar_facts n h
  simp [parseDigits, hd, ht]

theorem natCharsF_cons : ∀ (f n : Nat) (tail : JStr), n < f →
    ∃ c cs, natCharsF f n tail = c :: cs ∧ isDig c = true ∧ (1 ≤ n → c ≠ '0')
  | 0, n, _, h => absurd h (Nat.not_lt_zero n)
  | f + 1, n, tail, h => by
    by_cases h10 : n < 10
    · obtain ⟨hd, h0, _, _⟩ := digitChar_facts n h10
      exact ⟨digitChar n, tail, by simp [natCharsF, h10], hd, h0⟩
    · have hf : n / 10 < f := by omega
      obtain ⟨c, cs, he, hd, h0⟩ := natCharsF_cons f (n / 10) (digitChar (n % 10) :: tail) hf
      exact ⟨c, cs, by simp [natCharsF, h10, he], hd, fun _ => h0 (by omega)⟩

theorem parseDigits_natCharsF : ∀ (f n : Nat) (tail : JStr) (acc : Nat), n < f →
    ∃ p, 1 ≤ p ∧ parseDigits (natCharsF f n tail) acc = parseDigits tail (acc * p + n)
  | 0, n, _, _, h => absurd h (Nat.not_lt_zero n)
  | f + 1, n, tail, acc, h => by
    by_cases h10 : n < 10
    · refine ⟨10, by omega, ?_⟩
      simp only [natCharsF, if_pos h10]
      exact parseDigits_digitChar n h10 tail acc
    · have hf : n / 10 < f := by omega
      obtain ⟨p, hp, he⟩ := parseDigits_natCharsF f (n / 10) (digitChar (n % 10) :: tail) acc hf
      refine ⟨p * 10, by omega, ?_⟩
      simp only [natCharsF, if_neg h10]
      rw [he, parseDigits_digitChar (n % 10) (by omega)]
      congr 1
      rw [Nat.add_mul, ← Nat.mul_assoc]
      omega

theorem parseDigits_stop (tail : JStr) (acc : Nat) (h : headNotDig tail = true) :
    parseDigits tail acc = (acc, tail) := by
  cases tail with
  | nil => rfl
  | cons c cs =>
    have : isDig c = false := by simpa [headNotDig] using h
    simp [parseDigits, this]

theorem parseNum_natChars (n : Nat) (rest : JStr) (hr : headNotDig rest = true) :
    parseNum (natChars n ++ rest) = some (n, rest) := by
  unfold natChars
  rw [natCharsF_append]
  simp only [List.nil_append]
  rcases Nat.eq_zero_or_pos n with rfl | hpos
  · show parseNum (natCharsF 1 0 rest) = some (0, rest)
    have : natCharsF 1 0 rest = '0' :: rest := by simp [natCharsF, digitChar]
    rw [this]
    cases rest with
    | nil => rfl
    | cons c cs =>
      have hc : isDig c = false := by simpa [headNotDig] using hr
      simp [parseNum, hc]
  · obtain ⟨c, cs, he, hd, h0⟩ := natCharsF_cons (n + 1) n rest (by omega)
    have hpd : parseDigits (c :: cs) 0 = parseDigits cs (c.toNat - 48) := by
      simp [parseDigits, hd]
    have hpn : parseNum (natCharsF (n + 1) n rest) = some (parseDigits (natCharsF (n + 1) n rest) 0) := by
      rw [he, hpd]
      simp [parseNum, if_neg (h0 hpos), hd]
    rw [hpn]
    obtain ⟨p, hp, hpe⟩ := parseDigits_natCharsF (n + 1) n rest 0 (by omega)
    rw [hpe, parseDigits_stop rest _ hr]
    simp

/-! ### String round-trip lemma -/

theorem hexVal_zero : hexVal '0' = some 0 := by decide

theorem parseStr_escape : ∀ (s rest : JStr), parseStr (escapeStr s ++ '"' :: rest) = some (s, rest)
  | [], rest => by
    rw [show escapeStr [] ++ '"' :: rest = '"' :: rest from rfl, parseStr.eq_def]
    simp
  | c :: s, rest => by
    have ih := parseStr_escape s rest
    by_cases h1 : c = '"'
    · subst h1
      simp only [escapeStr, escCharJ, reduceIte, List.cons_append]
      rw [parseStr.eq_def]
      simp [escDecode, ih]
    · by_cases h2 : c = '\\'
      · subst h2
        simp only [escapeStr, escCharJ, reduceIte, List.cons_append]
        rw [parseStr.eq_def]
        simp [escDecode, ih]
      · by_cases h3 : c = '\n'
        · subst h3
          simp only [escapeStr, escCharJ, reduceIte, List.cons_append]
          rw [parseStr.eq_def]
          simp [escDecode, ih]
        · by_cases h4 : c = '\t'
          · subst h4
            simp only [escapeStr, escCharJ, reduceIte, List.cons_append]
            rw [parseStr.eq_def]
            simp [escDecode, ih]
          · by_cases h5 : c = '\r'
            · subst h5
              simp only [escapeStr, escCharJ, reduceIte, List.cons_append]
              rw [parseStr.eq_def]
              simp [escDecode, ih]
            · by_cases h6 : c = '\x08'
              · subst h6
                simp only [escapeStr, escCharJ, reduceIte, List.cons_append]
                rw [parseStr.eq_def]
                simp [escDecode, ih]
              · by_cases h7 : c = '\x0c'
                · subst h7
                  simp only [escapeStr, escCharJ, reduceIte, List.cons_append]
                  rw [parseStr.eq_def]
                  simp [escDecode, ih]
                · by_cases h8 : c.toNat < 32
                  · simp only [escapeStr, escCharJ, if_neg h1, if_neg h2, if_neg h3,
                      if_neg h4, if_neg h5, if_neg h6, if_neg h7, if_pos h8,
                      List.cons_append, List.nil_append]
                    rw [parseStr.eq_def]
                    simp only [reduceIte, hexVal_zero,
                      hexVal_hexChar (c.toNat / 16) (by omega),
                      hexVal_hexChar (c.toNat % 16) (by omega), ih, Option.map_some]
                    have harg : ((0 * 16 + 0) * 16 + c.toNat / 16) * 16 + c.toNat % 16
                        = c.toNat := by omega
                    rw [harg, Char.ofNat_toNat]
                    simp
                  · simp only [escapeStr, escCharJ, if_neg h1, if_neg h2, if_neg h3, if_neg h4,
                      if_neg h5, if_neg h6, if_neg h7, if_neg h8, List.cons_append,
                      List.nil_append]
                    rw [parseStr.eq_def]
                    simp [h1, h2, h8, ih]

/-! ### Sufficient parser fuel for serializer output -/

mutual

def fuelV : Json → Nat
  | .arr xs => 1 + fuelLA xs
  | .obj ps => 1 + fuelLO ps
  | .null => 1
  | .num _ => 1
  | .bool _ => 1
  | .str _ => 1

def fuelLA : List Json → Nat
  | [] => 0
  | x :: xs => 1 + fuelV x + fuelLA xs

def fuelLO : List (JStr × Json) → Nat
  | [] => 0
  | (_, v) :: ps => 1 + fuelV v + fuelLO ps

end

theorem fuelV_pos (v : Json) : 1 ≤ fuelV v := by
  cases v <;> simp [fuelV]

theorem natChars_head (n : Nat) :
    ∃ c cs, natChars n = c :: cs ∧ isDig c = true := by
  obtain ⟨c, cs, he, hd, _⟩ := natCharsF_cons (n + 1) n [] (by omega)
  exact ⟨c, cs, he, hd⟩

theorem dumpVal_head (k : Nat) (v : Json) :
    ∃ c cs, dumpVal k v = c :: cs ∧ isJsonWs c = false ∧ c ≠ ']' ∧ c ≠ '\x7d' := by
  cases v with
  | num n =>
    by_cases hn : n < 0
    · exact ⟨'-', natChars n.natAbs, by simp [dumpVal, intChars, hn], by decide⟩
    · obtain ⟨c, cs, he, hd⟩ := natChars_head n.natAbs
      exact ⟨c, cs, by simp [dumpVal, intChars, hn, he], isDig_not_ws c hd,
        (isDig_ne_brackets c hd).1, (isDig_ne_brackets c hd).2⟩
  | bool b => cases b <;> exact ⟨_, _, rfl, by decide⟩
  | arr xs => cases xs <;> exact ⟨_, _, rfl, by decide⟩
  | obj ps => cases ps <;> exact ⟨_, _, rfl, by decide⟩
  | null => exact ⟨_, _, rfl, by decide⟩
  | str s => exact ⟨_, _, rfl, by decide⟩

theorem skipWs_dumpListA (k : Nat) (x : Json) (xs : List Json) (rest : JStr) :
    ∃ c cs, skipWs (dumpListA k (x :: xs) ++ rest) = c :: cs ∧ c ≠ ']' := by
  obtain ⟨c, cs, he, hw, hne, _⟩ := dumpVal_head (k + 1) x
  cases xs with
  | nil =>
    refine ⟨c, cs ++ ('\n' :: (nspaces (2 * k) ++ (']' :: rest))), ?_, hne⟩
    simp only [dumpListA, List.append_assoc, List.cons_append, List.nil_append]
    rw [skipWs_nspaces, he, List.cons_append, skipWs_cons_nonws c _ hw]
  | cons y ys =>
    refine ⟨c, cs ++ (',' :: '\n' :: (dumpListA k (y :: ys) ++ rest)), ?_, hne⟩
    simp only [dumpListA, List.append_assoc, List.cons_append, List.nil_append]
    rw [skipWs_nspaces, he, List.cons_append, skipWs_cons_nonws c _ hw]

theorem skipWs_dumpListO (k : Nat) (s : JStr) (v : Json) (ps : List (JStr × Json)) (rest : JStr) :
    ∃ cs, skipWs (dumpListO k ((s, v) :: ps) ++ rest) = '"' :: cs := by
  cases ps with
  | nil =>
    refine ⟨(escapeStr s ++ '"' :: ':' :: ' ' :: dumpVal (k + 1) v)
      ++ ('\n' :: (nspaces (2 * k) ++ ('\x7d' :: rest))), ?_⟩
    simp only [dumpListO, List.append_assoc, List.cons_append, List.nil_append]
    rw [skipWs_nspaces, skipWs_cons_nonws '"' _ (by decide)]
  | cons q qs =>
    refine ⟨(escapeStr s ++ '"' :: ':' :: ' ' :: dumpVal (k + 1) v)
      ++ (',' :: '\n' :: (dumpListO k (q :: qs) ++ rest)), ?_⟩
    simp only [dumpListO, List.append_assoc, List.cons_append, List.nil_append]
    rw [skipWs_nspaces, skipWs_cons_nonws '"' _ (by decide)]

/-! ### The serializer/parser round trip -/

theorem headNotDig_cons (c : Char) (l : JStr) (h : isDig c = false) :
    headNotDig (c :: l) = true := by simp [headNotDig, h]

mutual

theorem rt_val : ∀ (v : Json) (k : Nat) (rest : JStr) (f : Nat), fuelV v ≤ f →
    headNotDig rest = true → parseVal f (dumpVal k v ++ rest) = some (v, rest)
  | .null, k, rest, f, hf, hrest => by
    obtain ⟨f0, rfl⟩ : ∃ f0, f = f0 + 1 := ⟨f - 1, by have := fuelV_pos Json.null; omega⟩
    simp only [dumpVal, List.cons_append, List.nil_append]
    rw [parseVal, skipWs_cons_nonws 'n' _ (by decide)]
    simp [expectLit]
  | .bool true, k, rest, f, hf, hrest => by
    obtain ⟨f0, rfl⟩ : ∃ f0, f = f0 + 1 := ⟨f - 1, by have := fuelV_pos (Json.bool true); omega⟩
    simp only [dumpVal, List.cons_append, List.nil_append]
    rw [parseVal, skipWs_cons_nonws 't' _ (by decide)]
    simp [expectLit]
  | .bool false, k, rest, f, hf, hrest => by
    obtain ⟨f0, rfl⟩ : ∃ f0, f = f0 + 1 := ⟨f - 1, by have := fuelV_pos (Json.bool false); omega⟩
    simp only [dumpVal, List.cons_append, List.nil_append]
    rw [parseVal, skipWs_cons_nonws 'f' _ (by decide)]
    simp [expectLit]
  | .num n, k, rest, f, hf, hrest => by
    obtain ⟨f0, rfl⟩ : ∃ f0, f = f0 + 1 := ⟨f - 1, by have := fuelV_pos (Json.num n); omega⟩
    by_cases hn : n < 0
    · simp only [dumpVal, intChars, if_pos hn, List.cons_append]
      rw [parseVal, skipWs_cons_nonws '-' _ (by decide)]
      simp [Char.reduceEq, parseNum_natChars n.natAbs rest hrest, abs_of_neg hn]
    · obtain ⟨c, cs, he, hd⟩ := natChars_head n.natAbs
      obtain ⟨hn7, hn6, hn5, hn4, hn1, hn2, hn3⟩ := isDig_ne c hd
      simp only [dumpVal, intChars, if_neg hn, he, List.cons_append]
      rw [parseVal, skipWs_cons_nonws c _ (isDig_not_ws c hd)]
      simp only [if_neg hn1, if_neg hn2, if_neg hn3, if_neg hn4, if_neg hn5, if_neg hn6,
        if_neg hn7, if_pos hd]
      rw [show c :: (cs ++ rest) = natChars n.natAbs ++ rest from by rw [he]; simp]
      rw [parseNum_natChars n.natAbs rest hrest]
      have hcast : ((n.natAbs : Nat) : Int) = n := by omega
      simp [hcast]
  | .str s, k, rest, f, hf, hrest => by
    obtain ⟨f0, rfl⟩ : ∃ f0, f = f0 + 1 := ⟨f - 1, by have := fuelV_pos (Json.str s); omega⟩
    simp only [dumpVal, List.cons_append, List.append_assoc, List.singleton_append]
    rw [parseVal, skipWs_cons_nonws '"' _ (by decide)]
    simp [parseStr_escape s rest]
  | .arr [], k, rest, f, hf, hrest => by
    obtain ⟨f0, rfl⟩ : ∃ f0, f = f0 + 1 := ⟨f - 1, by have := fuelV_pos (Json.arr []); omega⟩
    simp only [dumpVal, List.cons_append, List.nil_append]
    rw [parseVal, skipWs_cons_nonws '[' _ (by decide)]
    simp only [Char.reduceEq, reduceIte]
    rw [skipWs_cons_nonws ']' _ (by decide)]
    simp
  | .arr (x :: xs), k, rest, f, hf, hrest => by
    have hf1 : fuelLA (x :: xs) + 1 ≤ f := by simp [fuelV] at hf; omega
    obtain ⟨f0, rfl⟩ : ∃ f0, f = f0 + 1 := ⟨f - 1, by omega⟩
    simp only [dumpVal, List.cons_append]
    rw [parseVal, skipWs_cons_nonws '[' _ (by decide)]
    simp only [Char.reduceEq, reduceIte]
    rw [skipWs_cons_ws '\n' _ (by decide)]
    obtain ⟨c0, cs0, hsk, hne0⟩ := skipWs_dumpListA k x xs rest
    rw [hsk]
    split
    · next r2 heq =>
      simp only [List.cons.injEq] at heq
      exact absurd heq.1 hne0
    · rw [parseArrItems_cons_ws f0 '\n' _ (by decide)]
      rw [rt_arrItems (x :: xs) k rest f0 (List.cons_ne_nil x xs) (by omega)]
      simp
  | .obj [], k, rest, f, hf, hrest => by
    obtain ⟨f0, rfl⟩ : ∃ f0, f = f0 + 1 := ⟨f - 1, by have := fuelV_pos (Json.obj []); omega⟩
    simp only [dumpVal, List.cons_append, List.nil_append]
    rw [parseVal, skipWs_cons_nonws '\x7b' _ (by decide)]
    simp only [Char.reduceEq, reduceIte]
    rw [skipWs_cons_nonws '\x7d' _ (by decide)]
    simp
  | .obj ((s, v) :: ps), k, rest, f, hf, hrest => by
    have hf1 : fuelLO ((s, v) :: ps) + 1 ≤ f := by simp [fuelV] at hf; omega
    obtain ⟨f0, rfl⟩ : ∃ f0, f = f0 + 1 := ⟨f - 1, by omega⟩
    simp only [dumpVal, List.cons_append]
    rw [parseVal, skipWs_cons_nonws '\x7b' _ (by decide)]
    simp only [Char.reduceEq, reduceIte]
    rw [skipWs_cons_ws '\n' _ (by decide)]
    obtain ⟨cs0, hsk⟩ := skipWs_dumpListO k s v ps rest
    rw [hsk]
    split
    · next r2 heq =>
      simp only [List.cons.injEq] at heq
      exact absurd heq.1 (by decide)
    · rw [parseObjItems_cons_ws f0 '\n' _ (by decide)]
      rw [rt_objItems ((s, v) :: ps) k rest f0 (List.cons_ne_nil (s, v) ps) (by omega)]
      simp
termination_by structural v _ _ _ => v

theorem rt_arrItems : ∀ (xs : List Json) (k : Nat) (rest : JStr) (f : Nat), xs ≠ [] →
    fuelLA xs ≤ f → parseArrItems f (dumpListA k xs ++ rest) = some (xs, rest)
  | [], _, _, _, hne, _ => absurd rfl hne
  | [x], k, rest, f, _, hf => by
    have hf1 : 1 + fuelV x ≤ f := by simp [fuelLA] at hf; omega
    obtain ⟨f0, rfl⟩ : ∃ f0, f = f0 + 1 := ⟨f - 1, by omega⟩
    simp only [dumpListA, List.append_assoc, List.cons_append, List.nil_append]
    have hsw : skipWs ('\n' :: (nspaces (2 * k) ++ (']' :: rest))) = ']' :: rest := by
      rw [skipWs_cons_ws '\n' _ (by decide), skipWs_nspaces, skipWs_cons_nonws ']' _ (by decide)]
    rw [parseArrItems, parseVal_nspaces,
      rt_val x (k + 1) ('\n' :: (nspaces (2 * k) ++ (']' :: rest))) f0 (by omega)
        (headNotDig_cons _ _ (by decide))]
    simp [hsw]
  | x :: y :: ys, k, rest, f, _, hf => by
    have hf1 : 1 + fuelV x + fuelLA (y :: ys) ≤ f := by
      simp [fuelLA] at hf ⊢; omega
    obtain ⟨f0, rfl⟩ : ∃ f0, f = f0 + 1 := ⟨f - 1, by omega⟩
    simp only [dumpListA, List.append_assoc, List.cons_append, List.nil_append]
    rw [parseArrItems, parseVal_nspaces,
      rt_val x (k + 1) (',' :: '\n' :: (dumpListA k (y :: ys) ++ rest)) f0 (by omega)
        (headNotDig_cons _ _ (by decide))]
    have hsw : skipWs (',' :: '\n' :: (dumpListA k (y :: ys) ++ rest))
        = ',' :: '\n' :: (dumpListA k (y :: ys) ++ rest) :=
      skipWs_cons_nonws ',' _ (by decide)
    simp only [hsw, Char.reduceEq, reduceIte]
    rw [parseArrItems_cons_ws f0 '\n' _ (by decide),
      rt_arrItems (y :: ys) k rest f0 (List.cons_ne_nil y ys) (by omega)]
    simp
termination_by structural xs _ _ _ => xs

theorem rt_objItems : ∀ (ps : List (JStr × Json)) (k : Nat) (rest : JStr) (f : Nat), ps ≠ [] →
    fuelLO ps ≤ f → parseObjItems f (dumpListO k ps ++ rest) = some (ps, rest)
  | [], _, _, _, hne, _ => absurd rfl hne
  | [(s, v)], k, rest, f, _, hf => by
    have hf1 : 1 + fuelV v ≤ f := by simp [fuelLO] at hf; omega
    obtain ⟨f0, rfl⟩ : ∃ f0, f = f0 + 1 := ⟨f - 1, by omega⟩
    simp only [dumpListO, List.append_assoc, List.cons_append, List.nil_append]
    have hsw1 : skipWs (nspaces (2 * (k + 1))
        ++ ('"' :: (escapeStr s ++ '"' :: ':' :: ' ' :: (dumpVal (k + 1) v
          ++ ('\n' :: (nspaces (2 * k) ++ ('\x7d' :: rest)))))))
        = '"' :: (escapeStr s ++ '"' :: ':' :: ' ' :: (dumpVal (k + 1) v
          ++ ('\n' :: (nspaces (2 * k) ++ ('\x7d' :: rest))))) := by
      rw [skipWs_nspaces, skipWs_cons_nonws '"' _ (by decide)]
    have hsw2 : skipWs ('\n' :: (nspaces (2 * k) ++ ('\x7d' :: rest))) = '\x7d' :: rest := by
      rw [skipWs_cons_ws '\n' _ (by decide), skipWs_nspaces,
        skipWs_cons_nonws '\x7d' _ (by decide)]
    rw [parseObjItems]
    simp only [List.append_assoc, List.cons_append, hsw1, Char.reduceEq, reduceIte,
      parseStr_escape]
    rw [skipWs_cons_nonws ':' _ (by decide)]
    simp only [Char.reduceEq, reduceIte]
    rw [parseVal_cons_ws f0 ' ' _ (by decide),
      rt_val v (k + 1) ('\n' :: (nspaces (2 * k) ++ ('\x7d' :: rest))) f0 (by omega)
        (headNotDig_cons _ _ (by decide))]
    simp [hsw2]
  | (s, v) :: (qs', qv) :: qs, k, rest, f, _, hf => by
    have hf1 : 1 + fuelV v + fuelLO ((qs', qv) :: qs) ≤ f := by
      simp [fuelLO] at hf ⊢; omega
    obtain ⟨f0, rfl⟩ : ∃ f0, f = f0 + 1 := ⟨f - 1, by omega⟩
    simp only [dumpListO, List.append_assoc, List.cons_append, List.nil_append]
    have hsw1 : skipWs (nspaces (2 * (k + 1))
        ++ ('"' :: (escapeStr s ++ '"' :: ':' :: ' ' :: (dumpVal (k + 1) v
          ++ (',' :: '\n' :: (dumpListO k ((qs', qv) :: qs) ++ rest))))))
        = '"' :: (escapeStr s ++ '"' :: ':' :: ' ' :: (dumpVal (k + 1) v
          ++ (',' :: '\n' :: (dumpListO k ((qs', qv) :: qs) ++ rest)))) := by
      rw [skipWs_nspaces, skipWs_cons_nonws '"' _ (by decide)]
    rw [parseObjItems]
    simp only [List.append_assoc, List.cons_append, hsw1, Char.reduceEq, reduceIte,
      parseStr_escape]
    rw [skipWs_cons_nonws ':' _ (by decide)]
    simp only [Char.reduceEq, reduceIte]
    rw [parseVal_cons_ws f0 ' ' _ (by decide),
      rt_val v (k + 1) (',' :: '\n' :: (dumpListO k ((qs', qv) :: qs) ++ rest)) f0 (by omega)
        (headNotDig_cons _ _ (by decide))]
    have hsw2 : skipWs (',' :: '\n' :: (dumpListO k ((qs', qv) :: qs) ++ rest))
        = ',' :: '\n' :: (dumpListO k ((qs', qv) :: qs) ++ rest) :=
      skipWs_cons_nonws ',' _ (by decide)
    simp only [hsw2, Char.reduceEq, reduceIte]
    rw [parseObjItems_cons_ws f0 '\n' _ (by decide),
      rt_objItems ((qs', qv) :: qs) k rest f0 (List.cons_ne_nil (qs', qv) qs) (by omega)]
    simp
termination_by structural ps _ _ _ => ps

end

/-! ### Fuel bound and the top-level round trip -/

mutual

theorem fuelV_le : ∀ (v : Json) (k : Nat), fuelV v ≤ 2 * (dumpVal k v).length
  | .null, k => by simp [fuelV, dumpVal]
  | .bool true, k => by simp [fuelV, dumpVal]
  | .bool false, k => by simp [fuelV, dumpVal]
  | .num n, k => by
    have h1 : 1 ≤ (intChars n).length := by
      unfold intChars
      by_cases hn : n < 0
      · simp [hn]
      · simp only [if_neg hn]
        obtain ⟨c, cs, he, _⟩ := natChars_head n.natAbs
        rw [he]
        simp
    simp only [fuelV, dumpVal]
    omega
  | .str s, k => by
    simp [fuelV, dumpVal]
    omega
  | .arr [], k => by simp [fuelV, fuelLA, dumpVal]
  | .arr (x :: xs), k => by
    have h := fuelLA_le (x :: xs) k
    simp only [fuelV, dumpVal, List.length_cons]
    omega
  | .obj [], k => by simp [fuelV, fuelLO, dumpVal]
  | .obj ((s, v) :: ps), k => by
    have h := fuelLO_le ((s, v) :: ps) k
    simp only [fuelV, dumpVal, List.length_cons]
    omega

theorem fuelLA_le : ∀ (xs : List Json) (k : Nat), fuelLA xs ≤ 2 * (dumpListA k xs).length
  | [], k => by simp [fuelLA, dumpListA]
  | [x], k => by
    have h := fuelV_le x (k + 1)
    simp only [fuelLA, dumpListA, List.length_append, List.length_cons, List.length_nil,
      nspaces, List.length_replicate]
    omega
  | x :: y :: ys, k => by
    have h1 := fuelV_le x (k + 1)
    have h2 := fuelLA_le (y :: ys) k
    simp only [fuelLA] at h2 ⊢
    simp only [dumpListA, List.length_append, List.length_cons, List.length_nil,
      nspaces, List.length_replicate]
    omega

theorem fuelLO_le : ∀ (ps : List (JStr × Json)) (k : Nat), fuelLO ps ≤ 2 * (dumpListO k ps).length
  | [], k => by simp [fuelLO, dumpListO]
  | [(s, v)], k => by
    have h := fuelV_le v (k + 1)
    simp only [fuelLO, dumpListO, List.length_append, List.length_cons, List.length_nil,
      nspaces, List.length_replicate]
    omega
  | (s, v) :: q :: qs, k => by
    have h1 := fuelV_le v (k + 1)
    have h2 := fuelLO_le (q :: qs) k
    obtain ⟨qk, qv⟩ := q
    simp only [fuelLO] at h2 ⊢
    simp only [dumpListO, List.length_append, List.length_cons, List.length_nil,
      nspaces, List.length_replicate]
    omega

end

/-- The round trip at the heart of the spec: re-parsing the 2-space-indented
re-serialization of any JSON value yields that value back. -/
theorem pyLoads_pyDumps (v : Json) : pyLoads (pyDumps v) = some v := by
  unfold pyLoads pyDumps
  have hb : fuelV v ≤ 2 * (dumpVal 0 v).length + 2 := le_trans (fuelV_le v 0) (by omega)
  have h := rt_val v 0 [] (2 * (dumpVal 0 v).length + 2) hb rfl
  rw [List.append_nil] at h
  rw [h]
  simp [skipWs]

/-! ### Stream-decoder lemmas -/

theorem data_not_event (l : JStr) (h : strStarts l dataPre = true) :
    strStarts l eventPre = false := by
  obtain ⟨t, rfl⟩ := (strStarts_iff dataPre l).mp h
  rfl

theorem event_not_data (l : JStr) (h : strStarts l eventPre = true) :
    strStarts l dataPre = false := by
  obtain ⟨t, rfl⟩ := (strStarts_iff eventPre l).mp h
  rfl

theorem drop5_data (t : JStr) : (dataPre ++ t).drop 5 = t := rfl

theorem parseVal_e (f : Nat) (t : JStr) : parseVal f ('e' :: t) = none := by
  cases f with
  | zero => rfl
  | succ f =>
    rw [parseVal, skipWs_cons_nonws 'e' _ (by decide)]
    have hd : isDig 'e' = false := by decide
    simp [Char.reduceEq, hd]

theorem pyLoads_e (t : JStr) : pyLoads ('e' :: t) = none := by
  unfold pyLoads
  rw [parseVal_e]

theorem pyStrip_head (c : Char) (t : JStr) (hc : isPySpace c = false) :
    pyStrip (c :: t) = [] ∨ ∃ t2, pyStrip (c :: t) = c :: t2 := by
  unfold pyStrip
  rw [List.dropWhile_cons]
  simp only [hc, Bool.false_eq_true, if_false]
  have hsuf : (c :: t).reverse.dropWhile isPySpace <:+ (c :: t).reverse :=
    List.dropWhile_suffix _
  obtain ⟨u, hu⟩ := hsuf
  have hpre : ((c :: t).reverse.dropWhile isPySpace).reverse ++ u.reverse = c :: t := by
    rw [← List.reverse_append, hu, List.reverse_reverse]
  cases hr : ((c :: t).reverse.dropWhile isPySpace).reverse with
  | nil => exact Or.inl rfl
  | cons c' t2 =>
    right
    rw [hr, List.cons_append] at hpre
    have : c' = c := (List.cons.injEq _ _ _ _ ▸ hpre).1
    exact ⟨t2, by rw [this]⟩

theorem pyStrip_event_head (l : JStr) (h : strStarts l eventPre = true)
    (hne : pyStrip l ≠ []) : ∃ t2, pyStrip l = 'e' :: t2 := by
  obtain ⟨t, rfl⟩ := (strStarts_iff eventPre l).mp h
  have := pyStrip_head 'e' ('v' :: 'e' :: 'n' :: 't' :: ':' :: t) (by decide)
  rcases this with h0 | h2
  · exact absurd h0 hne
  · exact h2

theorem decodeLinePB_data (l : JStr) (h : strStarts l dataPre = true) :
    decodeLinePB l =
      if pyStrip (l.drop 5) = [] then [] else print_line (pyStrip (l.drop 5)) := by
  unfold decodeLinePB
  rw [data_not_event l h]
  simp [h]

theorem decodeLinePRB_data (l : JStr) (h : strStarts l dataPre = true) :
    decodeLinePRB l =
      if pyStrip (l.drop 5) = [] then [] else print_line (pyStrip (l.drop 5)) := by
  unfold decodeLinePRB
  simp [h]

theorem decodeLinePRB_event (l : JStr) (h : strStarts l eventPre = true)
    (hne : pyStrip l ≠ []) :
    decodeLinePRB l = [pyStrip l] ∧ pyLoads (pyStrip l) = none := by
  obtain ⟨t2, he⟩ := pyStrip_event_head l h hne
  have hload : pyLoads (pyStrip l) = none := by rw [he]; exact pyLoads_e t2
  refine ⟨?_, hload⟩
  unfold decodeLinePRB
  simp only [event_not_data l h, Bool.false_eq_true, if_false, if_neg hne]
  unfold print_line
  rw [hload]

/-! ### Claim C1 -/

/-- C1 counterexample: the response body `{"a":1}` is valid JSON and does not
start with the stream prefix, yet `print_response_body` prints it raw, not as
its 2-space-indented re-serialization. -/
theorem C1_counterexample :
    pyLoads "\x7b\"a\":1\x7d".data = some (Json.obj [("a".data, Json.num 1)]) ∧
    strStarts "\x7b\"a\":1\x7d".data dataPre = false ∧
    strStarts "\x7b\"a\":1\x7d".data eventPre = false ∧
    decodeRespPRB "\x7b\"a\":1\x7d".data = ["\x7b\"a\":1\x7d".data] ∧
    decodeRespPRB "\x7b\"a\":1\x7d".data ≠
      [pyDumps (Json.obj [("a".data, Json.num 1)])] :=
  ⟨by decide, by decide, by decide, by decide, by decide⟩

/-- C1 (amended): for a valid-JSON response body not starting with a stream
prefix, `print_bodies` prints the 2-space-indented re-serialization while
`print_response_body` prints the raw body unchanged; in both cases parsing the
printed output yields the same JSON value as parsing the input (round trip). -/
theorem C1_json_roundtrip (b : JStr) (v : Json) (h : pyLoads b = some v)
    (hd : strStarts b dataPre = false) (he : strStarts b eventPre = false) :
    decodeRespPB b = [pyDumps v] ∧ decodeRespPRB b = [b] ∧
    pyLoads (pyDumps v) = some v := by
  refine ⟨?_, ?_, pyLoads_pyDumps v⟩
  · unfold decodeRespPB
    simp only [hd, he, Bool.or_self, Bool.false_eq_true, if_false]
    unfold print_line
    rw [h]
  · unfold decodeRespPRB
    simp only [hd, Bool.false_eq_true, if_false]

/-- C1 witness. -/
theorem C1_witness :
    decodeRespPB "[1, 2]".data = [pyDumps (Json.arr [Json.num 1, Json.num 2])] ∧
    decodeRespPRB "[1, 2]".data = ["[1, 2]".data] ∧
    pyLoads (pyDumps (Json.arr [Json.num 1, Json.num 2]))
      = some (Json.arr [Json.num 1, Json.num 2]) :=
  C1_json_roundtrip "[1, 2]".data (Json.arr [Json.num 1, Json.num 2])
    (by decide) (by decide) (by decide)

/-! ### Claim C2 -/

/-- C2 counterexample: a request body in event-stream form is printed raw by
`print_bodies` (one `print` call with the whole body), which differs from what
the response-body Line Decoder produces on the same string. -/
theorem C2_counterexample :
    procInteractionPB ⟨some (some "data: \x7b\"a\":1\x7d\ndata: \x7b\"b\":2\x7d\n".data),
        "ok".data⟩
      = some [requestLabel, "data: \x7b\"a\":1\x7d\ndata: \x7b\"b\":2\x7d\n".data,
          responseLabel, "ok".data] ∧
    decodeRespPB "data: \x7b\"a\":1\x7d\ndata: \x7b\"b\":2\x7d\n".data ≠
      ["data: \x7b\"a\":1\x7d\ndata: \x7b\"b\":2\x7d\n".data] :=
  ⟨by decide, by decide⟩

/-- C2 (amended): every non-empty request body is printed by applying the
whole-string JSON-parse-or-raw-print (`print_line`) — event-stream decoding is
never applied to request bodies, only to response bodies. -/
theorem C2_request_whole_string (i : Interaction) (b : JStr)
    (h : i.request = some (some b)) (hb : b ≠ []) :
    procInteractionPB i = some ((requestLabel :: print_line b)
      ++ responseLabel :: decodeRespPB i.responseBody) := by
  unfold procInteractionPB
  rw [h]
  simp [hb]

/-- C2 witness. -/
theorem C2_witness :
    procInteractionPB ⟨some (some "\x7b\x7d".data), "ok".data⟩
      = some ((requestLabel :: print_line "\x7b\x7d".data)
          ++ responseLabel :: decodeRespPB "ok".data) :=
  C2_request_whole_string ⟨some (some "\x7b\x7d".data), "ok".data⟩ "\x7b\x7d".data
    rfl (by decide)

/-! ### Claim C3 -/

/-- C3 counterexample: an interaction whose mapping has no `request` key makes
`print_bodies` raise `KeyError` (modelled as `none`), so the run does fail. -/
theorem C3_counterexample :
    procInteractionPB ⟨none, "x".data⟩ = none ∧
    runPB ["p".data, "f".data] (fun _ => some [⟨none, "x".data⟩]) = none :=
  ⟨rfl, rfl⟩

/-- C3 (amended): when the request mapping is present but its `body` key is
absent or the body is empty, `print_bodies` skips the request entirely and
still prints the `Response:` label and body; when the request mapping itself
is absent, the interaction makes the run fail with a `KeyError`. -/
theorem C3_request_skipped (i : Interaction) :
    ((i.request = some none ∨ i.request = some (some [])) →
      procInteractionPB i = some (responseLabel :: decodeRespPB i.responseBody)) ∧
    (i.request = none → procInteractionPB i = none) := by
  constructor
  · rintro (h | h) <;> unfold procInteractionPB <;> rw [h] <;> simp
  · intro h
    unfold procInteractionPB
    rw [h]

/-- C3 witness. -/
theorem C3_witness :
    procInteractionPB ⟨some none, "ok".data⟩
      = some (responseLabel :: decodeRespPB "ok".data) :=
  (C3_request_skipped ⟨some none, "ok".data⟩).1 (Or.inl rfl)

/-! ### Claim C4 -/

/-- C4: the event-stream body `"data: {\"a\":1}\ndata: {\"b\":2}\n"` produces
exactly two separately pretty-printed JSON blocks, in order, with no blank
lines, in both utilities. -/
theorem C4_stream_two_blocks :
    decodeRespPB "data: \x7b\"a\":1\x7d\ndata: \x7b\"b\":2\x7d\n".data
      = ["\x7b\n  \"a\": 1\n\x7d".data, "\x7b\n  \"b\": 2\n\x7d".data] ∧
    decodeRespPRB "data: \x7b\"a\":1\x7d\ndata: \x7b\"b\":2\x7d\n".data
      = ["\x7b\n  \"a\": 1\n\x7d".data, "\x7b\n  \"b\": 2\n\x7d".data] :=
  ⟨by decide, by decide⟩

/-! ### Claim C5 -/

/-- C5: in `print_bodies` (the variant that recognizes `event:`), any line
beginning with `event:` contributes nothing to the output, while the `data:`
payload of the example body is still decoded and printed. -/
theorem C5_event_suppressed (l : JStr) (h : strStarts l eventPre = true) :
    decodeLinePB l = [] ∧
    decodeRespPB "event: ping\ndata: \x7b\"x\":1\x7d\n".data
      = ["\x7b\n  \"x\": 1\n\x7d".data] := by
  refine ⟨?_, by decide⟩
  unfold decodeLinePB
  simp [h]

/-- C5 witness. -/
theorem C5_witness :
    decodeLinePB "event: ping".data = [] ∧
    decodeRespPB "event: ping\ndata: \x7b\"x\":1\x7d\n".data
      = ["\x7b\n  \"x\": 1\n\x7d".data] :=
  C5_event_suppressed "event: ping".data (by decide)

/-! ### Claim C6 -/

/-- C6: within an event-stream body, a line beginning with `data:` has exactly
its first 5 characters removed, the remainder whitespace-trimmed, and is
skipped if the result is empty — in both utilities. -/
theorem C6_data_prefix_strip (l : JStr) (h : strStarts l dataPre = true) :
    decodeLinePB l
      = (if pyStrip (l.drop 5) = [] then [] else print_line (pyStrip (l.drop 5))) ∧
    decodeLinePRB l
      = (if pyStrip (l.drop 5) = [] then [] else print_line (pyStrip (l.drop 5))) :=
  ⟨decodeLinePB_data l h, decodeLinePRB_data l h⟩

/-- C6 witness. -/
theorem C6_witness :
    decodeLinePB "data:  ".data
      = (if pyStrip ("data:  ".data.drop 5) = [] then []
          else print_line (pyStrip ("data:  ".data.drop 5))) ∧
    decodeLinePRB "data:  ".data
      = (if pyStrip ("data:  ".data.drop 5) = [] then []
          else print_line (pyStrip ("data:  ".data.drop 5))) :=
  C6_data_prefix_strip "data:  ".data (by decide)

/-! ### Claim C7 -/

/-- C7: a JSON decode failure is handled, not raised: `print_line` falls back
to printing the raw string, and a whole response body that is not valid JSON
and does not start with a stream prefix is printed unchanged by both
utilities. -/
theorem C7_fallback_raw (b : JStr) (h : pyLoads b = none) :
    print_line b = [b] ∧
    (strStarts b dataPre = false → strStarts b eventPre = false →
      decodeRespPB b = [b] ∧ decodeRespPRB b = [b]) := by
  have hp : print_line b = [b] := by unfold print_line; rw [h]
  refine ⟨hp, fun hd he => ⟨?_, ?_⟩⟩
  · unfold decodeRespPB
    simp only [hd, he, Bool.or_self, Bool.false_eq_true, if_false]
    exact hp
  · unfold decodeRespPRB
    simp only [hd, Bool.false_eq_true, if_false]

/-- C7 witness. -/
theorem C7_witness :
    print_line "ping".data = ["ping".data] ∧
    (strStarts "ping".data dataPre = false → strStarts "ping".data eventPre = false →
      decodeRespPB "ping".data = ["ping".data] ∧ decodeRespPRB "ping".data = ["ping".data]) :=
  C7_fallback_raw "ping".data (by decide)

/-! ### Claim C8 -/

/-- C8: with no filename argument, both utilities print their usage message,
return status 1, and never consult the file system (the result is independent
of it); with a filename and a well-formed file, they return status 0. -/
theorem C8_usage_and_exit (p f : JStr) (fs fs' : JStr → Option (List Interaction))
    (ints : List Interaction) (outs : List (List JStr)) :
    runPB [p] fs = some ([usagePB], 1) ∧
    runPRB [p] fs = some ([usagePRB], 1) ∧
    runPB [p] fs = runPB [p] fs' ∧
    runPRB [p] fs = runPRB [p] fs' ∧
    (fs f = some ints → ints.mapM procInteractionPB = some outs →
      runPB [p, f] fs = some (outs.flatten, 0)) ∧
    (fs f = some ints → runPRB [p, f] fs = some ((ints.map procInteractionPRB).flatten, 0)) := by
  refine ⟨rfl, rfl, rfl, rfl, fun h1 h2 => ?_, fun h1 => ?_⟩
  · unfold runPB
    simp only [h1, h2]
  · unfold runPRB
    simp only [h1]

/-- C8 witness. -/
theorem C8_witness :
    runPB ["p".data] (fun _ => some []) = some ([usagePB], 1) ∧
    runPRB ["p".data] (fun _ => some []) = some ([usagePRB], 1) ∧
    runPB ["p".data, "f".data] (fun _ => some []) = some (([] : List (List JStr)).flatten, 0) :=
  ⟨(C8_usage_and_exit "p".data "f".data (fun _ => some []) (fun _ => none) [] []).1,
   (C8_usage_and_exit "p".data "f".data (fun _ => some []) (fun _ => none) [] []).2.1,
   (C8_usage_and_exit "p".data "f".data (fun _ => some []) (fun _ => none) [] []).2.2.2.2.1
     rfl rfl⟩

/-! ### Claim C9 -/

/-- C9: an input file with an empty `interactions` sequence produces no output
and status 0, in both utilities. -/
theorem C9_empty_no_output (p f : JStr) (fs : JStr → Option (List Interaction))
    (h : fs f = some []) :
    runPB [p, f] fs = some ([], 0) ∧ runPRB [p, f] fs = some ([], 0) := by
  constructor
  · unfold runPB
    simp only [h]
    rfl
  · unfold runPRB
    simp only [h]
    rfl

/-- C9 witness. -/
theorem C9_witness :
    runPB ["p".data, "f".data] (fun _ => some []) = some ([], 0) ∧
    runPRB ["p".data, "f".data] (fun _ => some []) = some ([], 0) :=
  C9_empty_no_output "p".data "f".data (fun _ => some []) rfl

/-! ### Claim C10 -/

/-- C10: in `print_response_body` (which only recognizes `data:`), a non-empty
`event:` line inside a `data:`-prefixed body is not suppressed: it is
whitespace-trimmed, fails JSON parsing, and is printed verbatim in the
output. -/
theorem C10_event_printed_verbatim (b l : JStr) (hb : strStarts b dataPre = true)
    (hl : l ∈ splitLines b) (he : strStarts l eventPre = true) (hne : pyStrip l ≠ []) :
    decodeLinePRB l = [pyStrip l] ∧ pyLoads (pyStrip l) = none ∧
    pyStrip l ∈ decodeRespPRB b := by
  obtain ⟨hdec, hload⟩ := decodeLinePRB_event l he hne
  refine ⟨hdec, hload, ?_⟩
  unfold decodeRespPRB
  simp only [hb, if_true]
  rw [List.mem_flatten]
  exact ⟨decodeLinePRB l, List.mem_map_of_mem _ hl,
    by rw [hdec]; exact List.mem_singleton_self _⟩

/-- C10 witness. -/
theorem C10_witness :
    decodeLinePRB "event: ping".data = [pyStrip "event: ping".data] ∧
    pyLoads (pyStrip "event: ping".data) = none ∧
    pyStrip "event: ping".data ∈ decodeRespPRB "data: 1\nevent: ping".data :=
  C10_event_printed_verbatim "data: 1\nevent: ping".data "event: ping".data
    (by decide) (by decide) (by decide) (by decide)
